import Mathlib

/-!
Verification of the Whiro runtime library and instrumentation engine
(lib/ArrayHashCalculator.c, lib/HeapTable.c, lib/TypeTable.c,
lib/CompositeInspector.c, lib/MemoryMonitor.cpp) against its
natural-language specification.

The C code is shallowly embedded: machine integers are `Int` with explicit
32-bit wraparound where overflow matters, memory is abstracted into typed
read functions, the uthash-backed Heap Table becomes an identity store plus
an insertion-order list, and the recursive inspectors become a fuel-indexed
interpreter.
-/

namespace Whiro

/-- Two's-complement wraparound at 32 bits: the value a C `int` holds after
an arithmetic result `z` is stored into it. -/
def wrap32 (z : Int) : Int := (z + 2 ^ 31) % 2 ^ 32 - 2 ^ 31

/-- Truncation of a rational toward zero, the semantics of the C cast
`(int)x` applied to a float or double value `x`. -/
def ratTrunc (x : ℚ) : Int := x.num.tdiv x.den

/-- The constant `FpPrecision` (`#define FpPrecision 100`,
include/MemoryMonitor.h, ArrayHashCalculator header section). -/
def FpPrecision : Int := 100

/-- A scalar array in memory, abstracted into the typed reads that
`WhiroComputeHashcode1D` performs: `intVal j` is the value of
`*((T*)Array + j)` for the integer formats 3..12, and `fpVal j` is the
value of `*((double*)Array + j)` resp. `*((float*)Array + j)` for
formats 1 and 2. -/
structure ScalarArray where
  intVal : Nat → Int
  fpVal : Nat → ℚ

/-- Advancing the base pointer by `i` elements: `(T*)Array + i`. -/
def ScalarArray.shift (A : ScalarArray) (i : Nat) : ScalarArray :=
  ⟨fun j => A.intVal (i + j), fun j => A.fpVal (i + j)⟩

/-- One iteration of the `WhiroComputeHashcode1D` loop
(lib/ArrayHashCalculator.c): the `switch(Format)`.  Formats 1 and 2 add
`(int)x == NULL ? 0 : (int)x * FpPrecision` (note: the cast to `int`
happens before the multiplication by `FpPrecision`); the integer formats
3..12 add `x == NULL ? 0 : x`; a format with no `case` (there is no
`default`) leaves the accumulator unchanged.  All arithmetic lands in the
`int Hashcode`, hence the 32-bit wraparound. -/
def hash1DStep (A : ScalarArray) (fmt : Int) (acc : Int) (j : Nat) : Int :=
  if fmt = 1 ∨ fmt = 2 then
    wrap32 (31 * acc +
      (if ratTrunc (A.fpVal j) = 0 then 0 else ratTrunc (A.fpVal j) * FpPrecision))
  else if 3 ≤ fmt ∧ fmt ≤ 12 then
    wrap32 (31 * acc + (if A.intVal j = 0 then 0 else A.intVal j))
  else acc

/-- `WhiroComputeHashcode1D(Array, Size, Format)`: fold the loop body over
`i = 0 .. Size-1` starting from `Hashcode = 1`. -/
def WhiroComputeHashcode1D (A : ScalarArray) (size : Nat) (fmt : Int) : Int :=
  (List.range size).foldl (hash1DStep A fmt) 1

/-- The loop of `WhiroComputeHashcode(Array, TotalElements, Step, Format)`:
`for (i = 0; i < TotalElements; i += Step)` adds, for formats 1..12,
`WhiroComputeHashcode1D((T*)Array + i, Step, Format)` into the `int`
accumulator (the `default` only prints a message).  The `fuel` argument
bounds the number of iterations; `Step = 0` makes the C loop diverge, and
is modelled by fuel exhaustion. -/
def hashOuterGo (A : ScalarArray) (fmt : Int) (total step : Nat) :
    Nat → Nat → Int → Int
  | 0, _, acc => acc
  | fuel + 1, i, acc =>
    if i < total then
      hashOuterGo A fmt total step fuel (i + step)
        (if 1 ≤ fmt ∧ fmt ≤ 12 then
          wrap32 (acc + WhiroComputeHashcode1D (A.shift i) step fmt)
        else acc)
    else acc

/-- `WhiroComputeHashcode(Array, TotalElements, Step, Format)`
(lib/ArrayHashCalculator.c).  `TotalElements + 1` units of fuel are enough
for every `Step ≥ 1`. -/
def WhiroComputeHashcode (A : ScalarArray) (total step : Nat) (fmt : Int) : Int :=
  hashOuterGo A fmt total step (total + 1) 0 0

/-- The `h1` fold of spec section 4.1 over element reads `v`:
`acc0 = 1`, `acc := 31 * acc + v j`, computed in 32-bit wraparound
arithmetic.  For the integer formats `encode` is the identity, so the term
added is the element value itself. -/
def hash1Spec (v : Nat → Int) (k : Nat) : Int :=
  (List.range k).foldl (fun acc j => wrap32 (31 * acc + v j)) 1

/-- The per-element float/double encoding claimed by spec section 4.1:
`trunc_to_int(x * FpPrecision)` — scale first, truncate second. -/
def encodeFpClaim (x : ℚ) : Int := ratTrunc (x * FpPrecision)

/-- The `h1` fold of spec section 4.1 over a float/double array, using the
claimed encoding `encodeFpClaim`. -/
def hash1FpClaim (v : Nat → ℚ) (k : Nat) : Int :=
  (List.range k).foldl (fun acc j => wrap32 (31 * acc + encodeFpClaim (v j))) 1

/-- Concrete one-element float array holding `0.5`, used to separate the
codec from the spec formula. -/
def fpArrEx : ScalarArray := ⟨fun _ => 0, fun _ => (1 : ℚ) / 2⟩

/-- One record of a variable's debug trace, as `MemoryMonitor::GetValidDef`
(lib/MemoryMonitor.cpp) consumes it.  `isAddressOf` is
`Def->isAddressOfVariable()`; `isAlloca` states that the extracted
`DefValue` (the address for an address-of record, the value otherwise) is
an `AllocaInst`; `retBlock` states that the record's parent block ends in a
`ReturnInst`, which is the code's test for lying in the inspection block
(the function's unique return block); `dominatesIns` is
`DT->dominates(Def, InsBlock)`; `value` identifies the extracted
`llvm::Value`. -/
structure DbgObs where
  isAddressOf : Bool
  isAlloca : Bool
  retBlock : Bool
  dominatesIns : Bool
  value : Nat
deriving DecidableEq

/-- The selection loop of `MemoryMonitor::GetValidDef`: `ValidDef` starts
as `nullptr`; an alloca definition is taken and the loop breaks; otherwise
a record in a return-terminated block, or one that dominates the inspection
block, overwrites `ValidDef` and scanning continues. -/
def getValidDefLoop : List DbgObs → Option Nat → Option Nat
  | [], acc => acc
  | d :: ds, acc =>
    if d.isAlloca then some d.value
    else if d.retBlock then getValidDefLoop ds (some d.value)
    else if d.dominatesIns then getValidDefLoop ds (some d.value)
    else getValidDefLoop ds acc

/-- `MemoryMonitor::GetValidDef`: run the selection loop over the trace; if
it selects nothing, fall back to `ExtendLiveRange` and then to
`ShadowInStack`, whose results are abstracted as the two `Option`
arguments. -/
def GetValidDef (trace : List DbgObs) (extendLiveRange shadowInStack : Option Nat) :
    Option Nat :=
  match getValidDefLoop trace none with
  | some v => some v
  | none =>
    match extendLiveRange with
    | some e => some e
    | none => shadowInStack

/-- Declarative description of the selection loop: the first record whose
extracted value is an alloca wins outright; otherwise the last record, in
trace order, that lies in a return-terminated block or dominates the
inspection block wins. -/
def selectFromTrace (trace : List DbgObs) : Option Nat :=
  match trace.find? (fun d => d.isAlloca) with
  | some d => some d.value
  | none =>
    ((trace.filter (fun d => d.retBlock || d.dominatesIns)).getLast?).map (fun d => d.value)

/-- A trace holding a value observation inside the inspection block
followed, in scan order, by a value observation that dominates the
inspection block. -/
def traceEx : List DbgObs :=
  [⟨false, false, true, false, 10⟩, ⟨false, false, false, true, 20⟩]

/-- The constant `MAX_NAME_LENGTH` (`#define MAX_NAME_LENGTH 128`, Type
Table header section of lib/MemoryMonitor.cpp). -/
def MAX_NAME_LENGTH : Nat := 128

/-- Number of bytes each name `fread` asks for:
`fread(..., sizeof(char), MAX_NAME_LENGTH + 1, TypeTableFile)`
(lib/TypeTable.c, lines 22 and 26). -/
def nameReadCount : Nat := MAX_NAME_LENGTH + 1

/-- Byte size of the destination `Name` arrays of the in-memory `Field` and
`TypeDescriptor` structures: `char Name[MAX_NAME_LENGTH]` (Type Table
header section of lib/MemoryMonitor.cpp). -/
def nameFieldSize : Nat := MAX_NAME_LENGTH

/-- `fread(dst, 1, n, f)` on a stream holding bytes `bs`: consume and
deliver `min n |bs|` bytes; the rest of `dst` keeps its previous
(indeterminate) content. -/
def readBytes (n : Nat) (bs : List Nat) : List Nat × List Nat :=
  (bs.take n, bs.drop n)

/-- Little-endian value of a byte list. -/
def leNat : List Nat → Nat
  | [] => 0
  | b :: rest => b % 256 + 256 * leNat rest

/-- `fread(&x, sizeof(int), 1, f)`: when four bytes are available, `x`
becomes their little-endian two's-complement value; otherwise `x` keeps its
indeterminate previous content, modelled as `none`. -/
def readInt32 (bs : List Nat) : Option Int × List Nat :=
  if 4 ≤ bs.length then (some (wrap32 (leNat (bs.take 4))), bs.drop 4)
  else (none, bs.drop 4)

/-- A `Field` as filled in by `WhiroOpenTypeTable`: the name bytes actually
delivered by `fread`, and the three `int` members (`none` when the stream
was exhausted and the member kept indeterminate content). -/
structure FieldRec where
  nameBytes : List Nat
  format : Option Int
  offset : Option Int
  baseTypeIndex : Option Int
deriving DecidableEq

/-- A `TypeDescriptor` as filled in by `WhiroOpenTypeTable`. -/
structure DescRec where
  nameBytes : List Nat
  quantFields : Int
  fields : List FieldRec
deriving DecidableEq

/-- Result of `WhiroOpenTypeTable`: `fatal` is the `printf` + `exit(1)`
path taken for a missing file; `undef` marks the state in which
`QuantFields` could not be read, so the inner loop bound is indeterminate
memory; `ok` is a normal return with the descriptors read. -/
inductive LoadResult where
  | fatal
  | undef
  | ok (descs : List DescRec)
deriving DecidableEq

/-- One iteration of the inner field loop of `WhiroOpenTypeTable`: name,
`Format`, `Offset`, `BaseTypeIndex`. -/
def readField (bs : List Nat) : FieldRec × List Nat :=
  let nm := readBytes nameReadCount bs
  let f := readInt32 nm.2
  let o := readInt32 f.2
  let b := readInt32 o.2
  (⟨nm.1, f.1, o.1, b.1⟩, b.2)

/-- The inner field loop: `for (j = 0; j < QuantFields; j++)`. -/
def readFields : Nat → List Nat → List FieldRec × List Nat
  | 0, bs => ([], bs)
  | n + 1, bs =>
    let fr := readField bs
    let rest := readFields n fr.2
    (fr.1 :: rest.1, rest.2)

/-- The outer descriptor loop of `WhiroOpenTypeTable`: read the name and
`QuantFields`, then `QuantFields` fields (a non-positive count runs the
inner loop zero times).  No `fread` return value is ever checked, so
nothing can abort here. -/
def readDescs : Nat → List Nat → LoadResult
  | 0, _ => .ok []
  | n + 1, bs =>
    let nm := readBytes nameReadCount bs
    match readInt32 nm.2 with
    | (none, _) => .undef
    | (some q, rest) =>
      let frs := readFields q.toNat rest
      match readDescs n frs.2 with
      | .ok ds => .ok (⟨nm.1, q, frs.1⟩ :: ds)
      | r => r

/-- `WhiroOpenTypeTable(ProgramName, TableSize, ...)` (lib/TypeTable.c):
a missing file is fatal (diagnostic and `exit(1)`); otherwise read
`TableSize` descriptors.  The mode-flag assignments have no bearing on the
loading itself and are modelled with the run configuration instead. -/
def WhiroOpenTypeTable (file : Option (List Nat)) (tableSize : Nat) : LoadResult :=
  match file with
  | none => .fatal
  | some bs => readDescs tableSize bs

/-- A Type Table file cut two bytes short: a full descriptor name, a field
count of 1, a full field name, `Format`, `Offset`, and only two of the four
bytes of `BaseTypeIndex`. -/
def shortFileEx : List Nat :=
  List.replicate nameReadCount 65 ++ [1, 0, 0, 0] ++
    List.replicate nameReadCount 66 ++ [6, 0, 0, 0] ++ [0, 0, 0, 0] ++ [7, 0]

/-- The in-memory table the loader produces from `shortFileEx`: the
descriptor is returned with its `BaseTypeIndex` never written. -/
def shortDescEx : DescRec :=
  ⟨List.replicate nameReadCount 65, 1,
    [⟨List.replicate nameReadCount 66, some 6, some 0, none⟩]⟩

/-- Metadata of one heap allocation (`HeapData`, Heap Table header):
element type index, element count, traversal stride. -/
structure HeapData where
  TypeIndex : Nat
  Size : Int
  ArrayStep : Int
deriving DecidableEq

/-- One Heap Table entry (`HeapEntry`, Heap Table header): key address,
metadata pointer (`none` once `free`d), `Visited` and `Free` flags. -/
structure HeapEntry where
  Key : Int
  Data : Option HeapData
  Visited : Bool
  Free : Bool
deriving DecidableEq

/-- The uthash-backed Heap Table: `store` maps an entry identity (one
malloc'ed `HeapEntry` struct) to its current contents, `order` is the
hash's app list in insertion order — `HASH_ADD` appends to it — and `next`
is the next fresh identity. -/
structure HeapState where
  store : Nat → Option HeapEntry
  order : List Nat
  next : Nat

/-- The empty table (`HeapTable = NULL`). -/
def HeapState.init : HeapState := ⟨fun _ => none, [], 0⟩

/-- `HASH_FIND(hh, HeapTable, &Block, sizeof(void*), Entry)`: the entry
whose `Key` equals `Block`, if any. -/
def hashFind (s : HeapState) (block : Int) : Option Nat :=
  s.order.find? fun id =>
    match s.store id with
    | some e => e.Key == block
    | none => false

/-- Overwrite the contents of entry `id`. -/
def setEntry (s : HeapState) (id : Nat) (e : HeapEntry) : HeapState :=
  { s with store := fun k => if k = id then some e else s.store k }

/-- `WhiroInsertHeapEntry(Block, Size, ArrayStep, TypeIndex)`
(lib/HeapTable.c): look the address up; when absent malloc a fresh entry
with `Key = Block`; in both cases allocate fresh `Data`, store the
metadata, clear `Visited` and `Free` — and then `HASH_ADD` the entry
unconditionally, which appends it to the hash's app list even when it is
already in the table. -/
def WhiroInsertHeapEntry (s : HeapState) (block size astep : Int) (tyIdx : Nat) :
    HeapState :=
  match hashFind s block with
  | some id =>
    let s1 := setEntry s id ⟨block, some ⟨tyIdx, size, astep⟩, false, false⟩
    { s1 with order := s1.order ++ [id] }
  | none =>
    let id := s.next
    let s1 := setEntry s id ⟨block, some ⟨tyIdx, size, astep⟩, false, false⟩
    { s1 with order := s1.order ++ [id], next := id + 1 }

/-- `WhiroUpdateHeapEntrySize(Block, NewSize)`: on a hit, set both `Size`
and `ArrayStep` to the new size.  (On an entry whose `Data` was already
freed the C code would dereference a null pointer; such states are kept
unchanged here and never arise from the instrumented call sequence.) -/
def WhiroUpdateHeapEntrySize (s : HeapState) (block newSize : Int) : HeapState :=
  match hashFind s block with
  | some id =>
    match s.store id with
    | some e =>
      match e.Data with
      | some d =>
        setEntry s id { e with Data := some { d with Size := newSize, ArrayStep := newSize } }
      | none => s
    | none => s
  | none => s

/-- `WhiroDeleteHeapEntry(Block)`: mark the entry freed and release its
`Data`; the entry itself stays in the table. -/
def WhiroDeleteHeapEntry (s : HeapState) (block : Int) : HeapState :=
  match hashFind s block with
  | some id =>
    match s.store id with
    | some e => setEntry s id { e with Free := true, Data := none }
    | none => s
  | none => s

/-- Number of cells of the table's app list holding an entry keyed `a` —
what an iteration over the table sees for address `a`. -/
def entryCountFor (s : HeapState) (a : Int) : Nat :=
  (s.order.filter fun id =>
    match s.store id with
    | some e => e.Key == a
    | none => false).length

/-- `Entry->Visited = b` for one entry. -/
def setVisited (s : HeapState) (id : Nat) (b : Bool) : HeapState :=
  match s.store id with
  | some e => setEntry s id { e with Visited := b }
  | none => s

/-- `WhiroSetAllHeapUnivisited()`: clear `Visited` on every entry. -/
def setAllUnvisited (s : HeapState) : HeapState :=
  { s with store := fun k => (s.store k).map fun e => { e with Visited := false } }

/-- The usage-mode globals recorded by `WhiroOpenTypeTable`
(`Precise`, `MemFilter`, `InsHeap`, `InsStack`), plus the address of the
`etext` ELF boundary of the running image. -/
structure RunCfg where
  precise : Bool
  memFilter : Bool
  insHeap : Bool
  insStack : Bool
  etext : Int

/-- A runtime `Field` as the Composite Inspector consumes it. -/
structure RtField where
  Name : String
  Format : Int
  Offset : Int
  BaseTypeIndex : Nat

/-- A runtime `TypeDescriptor`; `QuantFields` is the length of `Fields`,
over which `WhiroInspectData` iterates. -/
structure RtType where
  Name : String
  Fields : List RtField

/-- The ambient execution environment of the inspectors: the loaded Type
Table, the typed memory reads (integer scalar, float/double, pointer and
single byte at a byte address), and the rendering performed by `fprintf`'s
float conversions (`%.2lf`, `%.2f`). -/
structure Env where
  typeTable : Nat → RtType
  memScalar : Int → Int
  memFp : Int → ℚ
  memPtr : Int → Int
  memByte : Int → Int
  fmtFp : ℚ → String

/-- The `"%s %s %d : …\n"` line shape shared by the inspectors. -/
def mkLine (name func : String) (call : Int) (rendered : String) : String :=
  name ++ " " ++ func ++ " " ++ toString call ++ " : " ++ rendered ++ "\n"

/-- The `"%s %s %d: %d\n"` hashcode line of `WhiroInspectHeapArray` — no
space before the colon. -/
def mkHashLine (name func : String) (call : Int) (h : Int) : String :=
  name ++ " " ++ func ++ " " ++ toString call ++ ": " ++ toString h ++ "\n"

/-- `isprint` over the C character value read. -/
def isPrintChar (c : Int) : Bool := 32 ≤ c && c ≤ 126

/-- The single character printed by `%c`. -/
def charStr (c : Int) : String := String.singleton (Char.ofNat c.toNat)

/-- The digit-counting loop of `WhiroGetArrayIndexAsString`
(`while (Num != 0) { QuantDigits++; Num /= 10; }`), with explicit fuel. -/
def digitCount : Nat → Nat → Nat
  | 0, _ => 0
  | fuel + 1, n => if n = 0 then 0 else digitCount fuel (n / 10) + 1

/-- `WhiroGetArrayIndexAsString(Index)` (lib/ArrayHashCalculator.c):
`snprintf(IndexString, QuantDigits + 3, "[%d]", Index)` writes at most
`QuantDigits + 2` characters — one too few for index 0, whose rendering is
truncated to `"[0"`. -/
def WhiroGetArrayIndexAsString (i : Nat) : String :=
  ("[" ++ toString i ++ "]").take (digitCount (i + 1) i + 2)

/-- `sizeof` of the scalar C type behind each format code (LP64 model). -/
def formatSize (fmt : Int) : Int :=
  if fmt = 1 then 8 else if fmt = 2 then 4 else if fmt = 3 then 2
  else if fmt = 4 then 8 else if fmt = 5 then 8 else if fmt = 6 then 4
  else if fmt = 7 then 1 else if fmt = 8 then 1 else if fmt = 9 then 2
  else if fmt = 10 then 8 else if fmt = 11 then 8 else if fmt = 12 then 4
  else 1

/-- The element reads `*((T*)Array + j)` of the hash codec, viewed from
byte base address `base`. -/
def memArray (env : Env) (base : Int) (fmt : Int) : ScalarArray :=
  ⟨fun j => env.memScalar (base + j * formatSize fmt),
   fun j => env.memFp (base + j * formatSize fmt)⟩

/-- The element addresses the hash codec reads. -/
def hashReads (base : Int) (total : Nat) (fmt : Int) : List Int :=
  (List.range total).map fun j => base + j * formatSize fmt

/-- A call into the runtime inspectors, including the intermediate states
of their `for` loops. -/
inductive RtCall where
  | inspectData (addr : Int) (ty : RtType) (name func : String) (call : Int)
  | fieldsLoop (addr : Int) (fields : List RtField) (name func : String) (call : Int)
  | inspectPointer (ptr : Int) (tyIdx : Nat) (name func : String) (call : Int)
  | trackPointer (ptr : Int) (tyIdx : Nat) (name func : String) (call : Int)
  | inspectHeapData (id : Nat) (name func : String) (call : Int)
  | inspectHeapArray (id : Nat) (name func : String) (call : Int)
  | ptrSlotsLoop (key : Int) (baseTyIdx : Nat) (idxs : List Nat) (name func : String) (call : Int)
  | inspectUnion (addr : Int) (size : Int) (name func : String) (call : Int)
  | inspectEntireHeap (func : String) (call : Int)
  | heapEachLoop (ids : List Nat) (func : String) (call : Int)

/-- Sequential composition of two inspector steps: run the continuation
`k` from the state `one` left behind, concatenating output lines and read
addresses. -/
def seqRun (one : HeapState × List String × List Int)
    (k : HeapState → HeapState × List String × List Int) :
    HeapState × List String × List Int :=
  let r := k one.1
  (r.1, one.2.1 ++ r.2.1, one.2.2 ++ r.2.2)

/-- One field dispatch of `WhiroInspectData` — the `switch` on
`DataType->Fields[i].Format` (lib/CompositeInspector.c).  `recur` performs
the nested inspector calls (cases 13 precise, 16 and 17); the result is
the heap state, the lines written and the addresses read for this field.
The two `fprintf` calls of the printable-character cases 7 and 8 differ
only in the rendered payload and are merged into one line builder. -/
def fieldOne (cfg : RunCfg) (env : Env)
    (recur : RtCall → HeapState → HeapState × List String × List Int)
    (addr : Int) (f : RtField) (name func : String) (call : Int) (s : HeapState) :
    HeapState × List String × List Int :=
  let fullName := name ++ (if f.Name ≠ "" then "-" else "") ++ f.Name
  if f.Format = 1 ∨ f.Format = 2 then
    (s, [mkLine fullName func call (env.fmtFp (env.memFp (addr + f.Offset)))],
     [addr + f.Offset])
  else if f.Format = 3 ∨ f.Format = 4 ∨ f.Format = 5 ∨ f.Format = 6 ∨
      f.Format = 9 ∨ f.Format = 10 ∨ f.Format = 11 ∨ f.Format = 12 then
    (s, [mkLine fullName func call (toString (env.memScalar (addr + f.Offset)))],
     [addr + f.Offset])
  else if f.Format = 7 then
    (s,
     [mkLine fullName func call
        (if isPrintChar (env.memScalar (addr + f.Offset)) then
          charStr (env.memScalar (addr + f.Offset))
        else "@")],
     [addr + f.Offset])
  else if f.Format = 8 then
    (s,
     [mkLine fullName func call
        (if isPrintChar (env.memScalar (addr + f.Offset)) then
          toString (env.memScalar (addr + f.Offset))
        else "@")],
     [addr + f.Offset])
  else if f.Format = 13 then
    if cfg.precise then
      let r := recur
        (.trackPointer (env.memPtr (addr + f.Offset)) f.BaseTypeIndex fullName func call) s
      (r.1, r.2.1, (addr + f.Offset) :: r.2.2)
    else
      (s, [mkLine name func call ("pointer to " ++ (env.typeTable f.BaseTypeIndex).Name)],
       [])
  else if f.Format = 14 then (s, [mkLine fullName func call "void"], [])
  else if f.Format = 15 then
    match (env.typeTable f.BaseTypeIndex).Fields.head? with
    | none => (s, [], [])
    | some ef =>
      (s,
       [mkLine fullName func call (toString (WhiroComputeHashcode
          (memArray env (addr + f.Offset) ef.Format)
          ef.Offset.toNat ef.Offset.toNat ef.Format))],
       hashReads (addr + f.Offset) ef.Offset.toNat ef.Format)
  else if f.Format = 16 then
    recur (.inspectUnion addr f.Offset name func call) s
  else if f.Format = 17 then
    recur (.inspectData (addr + f.Offset) (env.typeTable f.BaseTypeIndex) name func call) s
  else if f.Format = 18 then (s, [mkLine fullName func call "non-inspectable value"], [])
  else (s, [], [])

/-- Fuel-indexed interpreter for the runtime inspectors
(lib/CompositeInspector.c, lib/HeapTable.c).  Every nested call and every
loop step costs one unit of fuel; exhausted fuel truncates the computation
(standing for the C code's divergence on pathological inputs).  The result
is the heap state, the lines written to the output file, and the addresses
read from inspected memory. -/
def runCall (cfg : RunCfg) (env : Env) :
    Nat → RtCall → HeapState → HeapState × List String × List Int
  | 0, _, s => (s, [], [])
  | fuel + 1, c, s =>
    match c with
    | .inspectData addr ty name func call =>
      runCall cfg env fuel (.fieldsLoop addr ty.Fields name func call) s
    | .fieldsLoop addr fields name func call =>
      match fields with
      | [] => (s, [], [])
      | f :: fs =>
        seqRun (fieldOne cfg env (fun c2 s2 => runCall cfg env fuel c2 s2)
            addr f name func call s)
          (runCall cfg env fuel (.fieldsLoop addr fs name func call))
    | .inspectPointer ptr tyIdx name func call =>
      if cfg.precise then
        let r := runCall cfg env fuel (.trackPointer ptr tyIdx name func call) s
        (setAllUnvisited r.1, r.2.1, r.2.2)
      else
        (s, [mkLine name func call ("pointer to " ++ (env.typeTable tyIdx).Name)], [])
    | .trackPointer ptr tyIdx name func call =>
      match hashFind s ptr with
      | some id =>
        if cfg.memFilter && !cfg.insHeap then (s, [], [])
        else runCall cfg env fuel (.inspectHeapData id name func call) s
      | none =>
        if ptr ≠ 0 then
          if cfg.memFilter && !cfg.insStack then (s, [], [])
          else if ptr < cfg.etext then (s, [], [])
          else runCall cfg env fuel (.inspectData ptr (env.typeTable tyIdx) name func call) s
        else (s, [mkLine name func call "NULL"], [])
    | .inspectHeapData id name func call =>
      match s.store id with
      | none => (s, [], [])
      | some e =>
        if e.Visited then (s, [], [])
        else
          let s1 := setVisited s id true
          if e.Free then (s1, [mkLine name func call "freed"], [])
          else
            match e.Data with
            | none => (s1, [], [])
            | some d =>
              if 1 < d.Size then runCall cfg env fuel (.inspectHeapArray id name func call) s1
              else
                runCall cfg env fuel
                  (.inspectData e.Key (env.typeTable d.TypeIndex) name func call) s1
    | .inspectHeapArray id name func call =>
      match s.store id with
      | none => (s, [], [])
      | some e =>
        match e.Data with
        | none => (s, [], [])
        | some d =>
          match (env.typeTable d.TypeIndex).Fields.head? with
          | none => (s, [], [])
          | some f0 =>
            if 0 < f0.Format ∧ f0.Format ≤ 12 then
              (s,
               [mkHashLine name func call (WhiroComputeHashcode
                  (memArray env e.Key f0.Format) d.Size.toNat d.ArrayStep.toNat f0.Format)],
               hashReads e.Key d.Size.toNat f0.Format)
            else if f0.Format = 13 then
              runCall cfg env fuel
                (.ptrSlotsLoop e.Key f0.BaseTypeIndex (List.range d.Size.toNat) name func call) s
            else (s, [], [])
    | .ptrSlotsLoop key baseTyIdx idxs name func call =>
      match idxs with
      | [] => (s, [], [])
      | i :: rest =>
        let q := seqRun
          (runCall cfg env fuel
            (.inspectPointer (env.memPtr (key + (i : Int))) baseTyIdx
              (name ++ WhiroGetArrayIndexAsString i) func call) s)
          (runCall cfg env fuel (.ptrSlotsLoop key baseTyIdx rest name func call))
        (q.1, q.2.1, (key + (i : Int)) :: q.2.2)
    | .inspectUnion addr size name func call =>
      (s,
       [mkLine name func call (String.join ((List.range size.toNat).map
          fun i => toString (env.memByte (addr + i))))],
       (List.range size.toNat).map fun i => addr + i)
    | .inspectEntireHeap func call =>
      let r := runCall cfg env fuel (.heapEachLoop s.order func call) s
      (setAllUnvisited r.1, r.2.1, r.2.2)
    | .heapEachLoop ids func call =>
      match ids with
      | [] => (s, [], [])
      | id :: rest =>
        seqRun
          (match s.store id with
           | some e =>
             if e.Free = false then
               runCall cfg env fuel (.inspectHeapData id "Heap Data" func call) s
             else (s, [], [])
           | none => (s, [], []))
          (runCall cfg env fuel (.heapEachLoop rest func call))

/-- One top-level runtime call injected by the instrumentation driver. -/
inductive TopOp where
  | insert (a size astep : Int) (tyIdx : Nat)
  | updateSize (a newSize : Int)
  | delete (a : Int)
  | inspectPointer (fuel : Nat) (ptr : Int) (tyIdx : Nat) (name func : String) (call : Int)
  | inspectEntireHeap (fuel : Nat) (func : String) (call : Int)

/-- Effect of one top-level call on the Heap Table.  An inspection call
that begins executing has at least one unit of fuel. -/
def execOp (cfg : RunCfg) (env : Env) (s : HeapState) : TopOp → HeapState
  | .insert a size astep ty => WhiroInsertHeapEntry s a size astep ty
  | .updateSize a n => WhiroUpdateHeapEntrySize s a n
  | .delete a => WhiroDeleteHeapEntry s a
  | .inspectPointer fuel p ty n f c =>
    (runCall cfg env (fuel + 1) (.inspectPointer p ty n f c) s).1
  | .inspectEntireHeap fuel f c =>
    (runCall cfg env (fuel + 1) (.inspectEntireHeap f c) s).1

/-- Run a sequence of top-level calls from a state. -/
def execOps (cfg : RunCfg) (env : Env) : List TopOp → HeapState → HeapState
  | [], s => s
  | op :: ops, s => execOps cfg env ops (execOp cfg env s op)

/-- Every entry of the table is unvisited. -/
def AllUnvisited (s : HeapState) : Prop :=
  ∀ id e, s.store id = some e → e.Visited = false

/-- A line of the `NAME SCOPE CALL : RENDERED` shape with one space on each
side of the colon. -/
def IsStdLine (l : String) : Prop :=
  ∃ name func rendered, ∃ call : Int, l = mkLine name func call rendered

/-- The Heap Table array-hashcode line shape, with the colon attached to
the call counter. -/
def IsHashLine (l : String) : Prop :=
  ∃ name func, ∃ call h : Int, l = mkHashLine name func call h

/-- Precise-mode configuration: no memory filter, `etext = 1000`. -/
def cfgEx : RunCfg := ⟨true, false, false, false, 1000⟩

/-- Concrete environment: descriptor 1 is a pointer array, every other
index is a one-int-field scalar descriptor; all memory reads as zero. -/
def envEx : Env :=
  ⟨fun i => if i = 1 then ⟨"PtrArr", [⟨"", 13, 0, 0⟩]⟩ else ⟨"T", [⟨"", 6, 0, 0⟩]⟩,
   fun _ => 0, fun _ => 0, fun _ => 0, fun _ => 0, fun _ => "0.00"⟩

/-- The table after `Insert(100); Delete(100); Insert(100)`. -/
def c2State : HeapState :=
  WhiroInsertHeapEntry
    (WhiroDeleteHeapEntry (WhiroInsertHeapEntry HeapState.init 100 1 1 0) 100) 100 1 1 0

/-- Table holding one live two-slot pointer-array allocation at 1000. -/
def ptrArrState : HeapState :=
  ⟨fun k => if k = 0 then some ⟨1000, some ⟨1, 2, 2⟩, false, false⟩ else none, [0], 1⟩

/-- Table holding one live two-element int-array allocation at 2000. -/
def intArrState : HeapState :=
  ⟨fun k => if k = 0 then some ⟨2000, some ⟨0, 2, 2⟩, false, false⟩ else none, [0], 1⟩

end Whiro

namespace Whiro

theorem ratTrunc_eq_floor (x : ℚ) (h : 0 ≤ x) : ratTrunc x = ⌊x⌋ := by
  rw [ratTrunc, Int.tdiv_eq_ediv (Rat.num_nonneg.mpr h) (by positivity), ← Rat.floor_def]

theorem ratTrunc_half : ratTrunc ((1 : ℚ) / 2) = 0 := by
  rw [ratTrunc_eq_floor _ (by norm_num), Int.floor_eq_zero_iff]
  constructor <;> norm_num

theorem wrap32_wrap32_add : ∀ a b : Int, wrap32 (wrap32 a + b) = wrap32 (a + b) := by
  intro a b
  unfold wrap32
  omega

theorem wrap32_zero : wrap32 0 = 0 := by decide

/-- For the integer formats the per-element branch of the 1-D codec is the
identity encoding: `x == NULL ? 0 : x` is `x`. -/
theorem hashcode1D_int (A : ScalarArray) (size : Nat) (fmt : Int)
    (h3 : 3 ≤ fmt) (h12 : fmt ≤ 12) :
    WhiroComputeHashcode1D A size fmt = hash1Spec A.intVal size := by
  unfold WhiroComputeHashcode1D hash1Spec
  congr 1
  funext acc j
  have hfp : ¬(fmt = 1 ∨ fmt = 2) := by omega
  simp only [hash1DStep, if_neg hfp, if_pos (And.intro h3 h12)]
  rcases eq_or_ne (A.intVal j) 0 with h0 | h0 <;> simp [h0]

/-- Unrolling the outer loop: starting at index `i` with `m` whole strides
remaining, the loop is a left fold of wrapped additions of the 1-D digests
of the successive chunks. -/
theorem hashOuterGo_chunks (A : ScalarArray) (fmt : Int) (step : Nat)
    (hs : 1 ≤ step) (h1 : 1 ≤ fmt) (h12 : fmt ≤ 12) :
    ∀ (m fuel i : Nat) (acc : Int), m ≤ fuel →
      hashOuterGo A fmt (i + m * step) step fuel i acc =
        (List.range m).foldl
          (fun a k => wrap32 (a + WhiroComputeHashcode1D (A.shift (i + k * step)) step fmt))
          acc := by
  intro m
  induction m with
  | zero =>
    intro fuel i acc _
    cases fuel with
    | zero => simp [hashOuterGo]
    | succ f => simp [hashOuterGo]
  | succ m ih =>
    intro fuel i acc hf
    obtain ⟨f, rfl⟩ : ∃ f, fuel = f + 1 := ⟨fuel - 1, by omega⟩
    have hlt : i < i + (m + 1) * step := by
      have hpos : 0 < (m + 1) * step := Nat.mul_pos (by omega) (by omega)
      omega
    have harith : i + (m + 1) * step = (i + step) + m * step := by ring
    simp only [hashOuterGo, if_pos hlt, if_pos (And.intro h1 h12)]
    rw [harith]
    rw [ih f (i + step) _ (by omega)]
    rw [List.range_succ_eq_map, List.foldl_cons, List.foldl_map]
    congr 1
    · funext a k
      have : i + (k + 1) * step = i + step + k * step := by ring
      rw [this]
    · simp

/-- A left fold of 32-bit wrapped additions is the 32-bit wrap of the plain
integer sum, provided the accumulator starts already wrapped. -/
theorem foldl_wrapAdd_eq (g : Nat → Int) :
    ∀ (m : Nat) (acc : Int), acc = wrap32 acc →
      (List.range m).foldl (fun a k => wrap32 (a + g k)) acc =
        wrap32 (acc + ∑ k ∈ Finset.range m, g k) := by
  intro m
  induction m with
  | zero =>
    intro acc hacc
    simpa using hacc
  | succ m ih =>
    intro acc hacc
    rw [List.range_succ, List.foldl_append, List.foldl_cons, List.foldl_nil,
      ih acc hacc, wrap32_wrap32_add, Finset.sum_range_succ, ← add_assoc]

end Whiro

namespace Whiro

/-- Claim C3: for an integer-format scalar array (codes 3..12) of `N`
elements traversed with stride `S ≥ 1`, `S ∣ N`, the digest of
`WhiroComputeHashcode` is the 32-bit wrap of the sum over the chunk starts
`i ∈ {0, S, 2S, …, N−S}` (written `i = k·S`, `k < N/S`) of the `h1` fold of
spec section 4.1, where each element contributes its own value (and hence a
zero-valued element contributes 0). -/
theorem computeHashcode_integer_chunks (A : ScalarArray) (N S : Nat) (fmt : Int)
    (hS : 1 ≤ S) (hdvd : S ∣ N) (h3 : 3 ≤ fmt) (h12 : fmt ≤ 12) :
    WhiroComputeHashcode A N S fmt =
      wrap32 (∑ k ∈ Finset.range (N / S), hash1Spec (fun j => A.intVal (k * S + j)) S) := by
  obtain ⟨m, rfl⟩ := hdvd
  have htot : S * m = 0 + m * S := by ring
  have hNdiv : (0 + m * S) / S = m := by
    rw [zero_add]
    exact Nat.mul_div_cancel m (by omega)
  unfold WhiroComputeHashcode
  rw [htot, hashOuterGo_chunks A fmt S hS (by omega) h12 m (0 + m * S + 1) 0 0 (by nlinarith),
    foldl_wrapAdd_eq _ m 0 wrap32_zero.symm, hNdiv]
  congr 1
  rw [zero_add]
  apply Finset.sum_congr rfl
  intro k _
  rw [hashcode1D_int _ _ _ h3 h12]
  simp [ScalarArray.shift, hash1Spec]

/-- Claim C4, counterexample: on the one-element float array `{0.5}` the
codec yields `31 * 1 + ((int)0.5) * FpPrecision = 31`, while the claimed
encoding `trunc_to_int(x * 100)` yields `31 * 1 + 50 = 81`; the two
disagree. -/
theorem hash1D_fp_claim_counterexample :
    WhiroComputeHashcode1D fpArrEx 1 2 = 31 ∧
      hash1FpClaim (fun _ => (1 : ℚ) / 2) 1 = 81 ∧ (31 : Int) ≠ 81 := by
  refine ⟨?_, ?_, by decide⟩
  · unfold WhiroComputeHashcode1D
    rw [show List.range 1 = [0] from rfl, List.foldl_cons, List.foldl_nil]
    unfold hash1DStep
    rw [if_pos (by norm_num)]
    have h : ratTrunc (fpArrEx.fpVal 0) = 0 := ratTrunc_half
    rw [h, if_pos rfl]
    decide
  · unfold hash1FpClaim
    rw [show List.range 1 = [0] from rfl, List.foldl_cons, List.foldl_nil]
    unfold encodeFpClaim
    have h50 : (1 : ℚ) / 2 * (FpPrecision : Int) = 50 := by
      norm_num [FpPrecision]
    rw [h50]
    have htr : ratTrunc (50 : ℚ) = 50 := by
      rw [ratTrunc_eq_floor _ (by norm_num)]
      norm_num
    rw [htr]
    decide

/-- Claim C4 (amended): for the float/double formats (codes 2 and 1), each
element `x` contributes `trunc_to_int(x) * FpPrecision` — the cast to `int`
happens before the multiplication by `FpPrecision`, so the fractional part
is discarded before scaling — and a zero-valued element contributes 0
(`trunc_to_int(0) * 100 = 0`). -/
theorem hashcode1D_fp_encoding (A : ScalarArray) (size : Nat) (fmt : Int)
    (h : fmt = 1 ∨ fmt = 2) :
    WhiroComputeHashcode1D A size fmt =
      (List.range size).foldl
        (fun acc j => wrap32 (31 * acc + ratTrunc (A.fpVal j) * FpPrecision)) 1 := by
  unfold WhiroComputeHashcode1D
  congr 1
  funext acc j
  simp only [hash1DStep, if_pos h]
  rcases eq_or_ne (ratTrunc (A.fpVal j)) 0 with h0 | h0 <;> simp [h0]

/-- Witness for C4 (amended) at the one-element float array `{0.5}`. -/
theorem hashcode1D_fp_encoding_witness :
    ((2 : Int) = 1 ∨ (2 : Int) = 2) ∧
      WhiroComputeHashcode1D fpArrEx 1 2 =
        (List.range 1).foldl
          (fun acc j => wrap32 (31 * acc + ratTrunc (fpArrEx.fpVal j) * FpPrecision)) 1 :=
  ⟨Or.inr rfl, hashcode1D_fp_encoding fpArrEx 1 2 (Or.inr rfl)⟩

/-- Witness for C3 at `A.intVal j = j`, `N = 4`, `S = 2`, `fmt = 6`. -/
theorem computeHashcode_integer_chunks_witness :
    (1 ≤ 2 ∧ 2 ∣ 4 ∧ (3 : Int) ≤ 6 ∧ (6 : Int) ≤ 12) ∧
      WhiroComputeHashcode ⟨fun j => (j : Int), fun _ => 0⟩ 4 2 6 =
        wrap32 (∑ k ∈ Finset.range (4 / 2),
          hash1Spec (fun j => ((⟨fun j => (j : Int), fun _ => 0⟩ : ScalarArray).intVal (k * 2 + j))) 2) :=
  ⟨⟨by norm_num, by norm_num, by norm_num, by norm_num⟩,
    computeHashcode_integer_chunks _ 4 2 6 (by norm_num) (by norm_num) (by norm_num) (by norm_num)⟩

end Whiro

namespace Whiro

/-- Claim C5, counterexample: `traceEx` holds no address-of observation,
and its only in-inspection-block value observation carries value 10, which
the claimed priority order (in-block before merely-dominating) must select;
`GetValidDef` instead returns 20, the value of the later dominating
observation. -/
theorem getValidDef_priority_counterexample :
    traceEx.filter (fun d => d.isAddressOf) = [] ∧
      (traceEx.filter (fun d => d.retBlock)).getLast? =
        some ⟨false, false, true, false, 10⟩ ∧
      GetValidDef traceEx none none = some 20 := by decide

theorem getValidDefLoop_eq (trace : List DbgObs) :
    ∀ acc, getValidDefLoop trace acc =
      match trace.find? (fun d => d.isAlloca) with
      | some d => some d.value
      | none =>
        match trace.reverse.find? (fun d => d.retBlock || d.dominatesIns) with
        | some d => some d.value
        | none => acc := by
  induction trace with
  | nil => intro acc; rfl
  | cons d ds ih =>
    intro acc
    cases ha : d.isAlloca with
    | true => simp [getValidDefLoop, ha]
    | false =>
      have hsel : getValidDefLoop (d :: ds) acc =
          getValidDefLoop ds (if d.retBlock || d.dominatesIns then some d.value else acc) := by
        cases hr : d.retBlock <;> cases hd : d.dominatesIns <;>
          simp [getValidDefLoop, ha, hr, hd]
      rw [hsel, ih]
      cases hf : ds.find? (fun d => d.isAlloca) with
      | some e => simp [ha, hf]
      | none =>
        cases hl : ds.reverse.find? (fun d => d.retBlock || d.dominatesIns) with
        | some e => simp [ha, hf, hl]
        | none => cases hq : (d.retBlock || d.dominatesIns) <;> simp [ha, hf, hl, hq]

/-- Claim C5 (amended): with a non-empty filtered trace, `GetValidDef`
selects the first observation whose extracted value is a stack slot
(an alloca), whether it is an address-of or a value observation; failing
that, the last observation in trace order that either lies in the
return-terminated inspection block or dominates the inspection block, with
no priority between those two kinds; and only when neither selection
applies does it fall back to `ExtendLiveRange` and then `ShadowInStack`. -/
theorem getValidDef_characterization (trace : List DbgObs) (ext shadow : Option Nat) :
    GetValidDef trace ext shadow =
      match selectFromTrace trace with
      | some v => some v
      | none =>
        match ext with
        | some e => some e
        | none => shadow := by
  unfold GetValidDef selectFromTrace
  rw [getValidDefLoop_eq trace none]
  cases hf : trace.find? (fun d => d.isAlloca) with
  | some d => simp [hf]
  | none =>
    cases hl : trace.reverse.find? (fun d => d.retBlock || d.dominatesIns) with
    | some e => simp [hf, hl]
    | none => simp [hf, hl]

end Whiro

namespace Whiro

set_option maxRecDepth 40000

/-- Claim C6, counterexample: on a file two bytes shorter than the one
descriptor it announces, the loader neither terminates the program nor
aborts: it returns normally, with the descriptor's `BaseTypeIndex` never
written. -/
theorem openTypeTable_short_read_counterexample :
    WhiroOpenTypeTable (some shortFileEx) 1 ≠ LoadResult.fatal ∧
      WhiroOpenTypeTable (some shortFileEx) 1 = LoadResult.ok [shortDescEx] := by
  constructor
  · decide
  · decide

/-- Claim C6 (amended): a missing Type Table file is fatal (diagnostic,
then termination); a short read however is NOT detected — the `fread`
return values are unchecked and the loader returns normally with partially-
or un-initialized descriptor members. -/
theorem openTypeTable_missing_fatal_short_read_returns :
    (∀ ts : Nat, WhiroOpenTypeTable none ts = LoadResult.fatal) ∧
      WhiroOpenTypeTable (some shortFileEx) 1 = LoadResult.ok [shortDescEx] :=
  ⟨fun _ => rfl, by decide⟩

/-- Claim C7: each name `fread` writes `MAX_NAME_LENGTH + 1 = 129` bytes
(when the file provides them) starting at a `Name` array of
`MAX_NAME_LENGTH = 128` bytes; byte index 128 is written but lies outside
the array, so the read does not stay within its bounds. -/
theorem name_read_overflows_name_array :
    nameFieldSize < nameReadCount ∧
      128 ∈ Finset.range nameReadCount ∧ 128 ∉ Finset.range nameFieldSize :=
  ⟨by decide, by decide, by decide⟩

end Whiro

namespace Whiro

/-- Claim C2, failing input `Insert(100); Delete(100); Insert(100)`: the
second insert finds the existing entry, rewrites it with `Free = 0` — and
then `HASH_ADD`s it again, so the table's app list carries the same entry
twice (in the real uthash this makes the tail entry's `next` pointer point
to itself, and iteration over the table no longer terminates). -/
theorem insert_delete_insert_duplicates_entry :
    entryCountFor c2State 100 = 2 ∧
      c2State.order = [0, 0] ∧
      c2State.store 0 = some ⟨100, some ⟨0, 1, 1⟩, false, false⟩ := by
  refine ⟨by decide, by decide, by decide⟩

/-- Claim C9, failing input: a two-slot pointer-array heap entry keyed
1000.  `Entry->Key + i` advances the `void*` key one byte per index, so
the two slots are read at addresses 1000 and 1001 instead of 1000 and
`1000 + 1 * sizeof(void*) = 1008`; moreover the name of slot 0 is
truncated to `"p[0"` by the undersized `snprintf` buffer of
`WhiroGetArrayIndexAsString`. -/
theorem inspectHeapArray_byte_stride :
    (runCall cfgEx envEx 9 (.inspectHeapArray 0 "p" "main" 1) ptrArrState).2 =
        (["p[0 main 1 : NULL\n", "p[1] main 1 : NULL\n"], [1000, 1001]) ∧
      (1001 : Int) ≠ 1000 + 1 * 8 := by
  refine ⟨by decide, by norm_num⟩

end Whiro

namespace Whiro

/-- Claim C1, counterexample: precise mode, empty Heap Table, `p = 500`,
`etext = 1000`, stack inspection permitted.  Although `p < etext`, the
track call writes nothing and reads nothing — `WhiroTrackPointer` refuses
exactly the pointers BELOW `etext` — while dispatching the same arguments
to `WhiroInspectData` directly would have written a line and read the
pointee. -/
theorem trackPointer_guard_counterexample :
    (500 : Int) < 1000 ∧
      (runCall cfgEx envEx 9 (.trackPointer 500 0 "p" "main" 1) HeapState.init).2 = ([], []) ∧
      (runCall cfgEx envEx 9 (.inspectData 500 (envEx.typeTable 0) "p" "main" 1)
          HeapState.init).2 = (["p main 1 : 0\n"], [500]) := by
  refine ⟨by norm_num, by decide, by decide⟩

/-- Claim C1 (amended): in precise mode, for a non-null pointer `p` that is
not a key of the Heap Table, with stack inspection permitted by the memory
filter, `WhiroTrackPointer` dereferences `p` and renders the pointee via
`WhiroInspectData` if and only if `etext ≤ p`; when `p < etext` the guard
refuses and the call returns with no output and no memory read. -/
theorem trackPointer_guard (cfg : RunCfg) (env : Env) (fuel : Nat) (p : Int)
    (tyIdx : Nat) (name func : String) (call : Int) (s : HeapState)
    (hfind : hashFind s p = none) (hnz : p ≠ 0)
    (hfilter : ¬(cfg.memFilter = true ∧ cfg.insStack = false)) :
    runCall cfg env (fuel + 1) (.trackPointer p tyIdx name func call) s =
      if p < cfg.etext then (s, [], [])
      else runCall cfg env fuel (.inspectData p (env.typeTable tyIdx) name func call) s := by
  have hfb : (cfg.memFilter && !cfg.insStack) = false := by
    cases hm : cfg.memFilter <;> cases hi : cfg.insStack <;> simp_all
  simp only [runCall, hfind, hfb, if_pos hnz]
  simp

/-- Witness for C1 (amended) at `p = 1500 ≥ etext = 1000`: the track call
is the `WhiroInspectData` dispatch. -/
theorem trackPointer_guard_witness :
    (hashFind HeapState.init 1500 = none ∧ (1500 : Int) ≠ 0 ∧
        ¬(cfgEx.memFilter = true ∧ cfgEx.insStack = false)) ∧
      runCall cfgEx envEx 9 (.trackPointer 1500 0 "p" "main" 1) HeapState.init =
        runCall cfgEx envEx 8 (.inspectData 1500 (envEx.typeTable 0) "p" "main" 1)
          HeapState.init := by
  refine ⟨⟨rfl, by norm_num, by decide⟩, ?_⟩
  have h := trackPointer_guard cfgEx envEx 8 1500 0 "p" "main" 1 HeapState.init rfl
    (by norm_num) (by decide)
  rw [if_neg (by norm_num [cfgEx])] at h
  exact h

end Whiro

namespace Whiro

theorem allUnvisited_setAllUnvisited (s : HeapState) : AllUnvisited (setAllUnvisited s) := by
  intro id e he
  have he2 : (s.store id).map (fun e => { e with Visited := false }) = some e := he
  cases h : s.store id with
  | none => rw [h] at he2; simp at he2
  | some e0 =>
    rw [h] at he2
    have h3 : ({ e0 with Visited := false } : HeapEntry) = e := by simpa using he2
    rw [← h3]

theorem allUnvisited_setEntry (s : HeapState) (id : Nat) (e : HeapEntry)
    (hs : AllUnvisited s) (he : e.Visited = false) : AllUnvisited (setEntry s id e) := by
  intro k e2 hk
  simp only [setEntry] at hk
  by_cases hki : k = id
  · rw [if_pos hki] at hk
    cases hk
    exact he
  · rw [if_neg hki] at hk
    exact hs k e2 hk

theorem allUnvisited_insert (s : HeapState) (a size astep : Int) (ty : Nat)
    (hs : AllUnvisited s) : AllUnvisited (WhiroInsertHeapEntry s a size astep ty) := by
  intro k e hk
  unfold WhiroInsertHeapEntry at hk
  rcases hf : hashFind s a with _ | id
  · simp only [hf] at hk
    exact allUnvisited_setEntry s s.next _ hs rfl k e hk
  · simp only [hf] at hk
    exact allUnvisited_setEntry s id _ hs rfl k e hk

theorem allUnvisited_update (s : HeapState) (a n : Int) (hs : AllUnvisited s) :
    AllUnvisited (WhiroUpdateHeapEntrySize s a n) := by
  intro k e2 hk
  unfold WhiroUpdateHeapEntrySize at hk
  rcases hf : hashFind s a with _ | id
  · simp only [hf] at hk
    exact hs k e2 hk
  · simp only [hf] at hk
    rcases hse : s.store id with _ | e
    · simp only [hse] at hk
      exact hs k e2 hk
    · simp only [hse] at hk
      rcases hd : e.Data with _ | d
      · simp only [hd] at hk
        exact hs k e2 hk
      · simp only [hd] at hk
        exact allUnvisited_setEntry s id
          { e with Data := some { d with Size := n, ArrayStep := n } }
          hs (hs id e hse) k e2 hk

theorem allUnvisited_delete (s : HeapState) (a : Int) (hs : AllUnvisited s) :
    AllUnvisited (WhiroDeleteHeapEntry s a) := by
  intro k e2 hk
  unfold WhiroDeleteHeapEntry at hk
  rcases hf : hashFind s a with _ | id
  · simp only [hf] at hk
    exact hs k e2 hk
  · simp only [hf] at hk
    rcases hse : s.store id with _ | e
    · simp only [hse] at hk
      exact hs k e2 hk
    · simp only [hse] at hk
      exact allUnvisited_setEntry s id { e with Free := true, Data := none }
        hs (hs id e hse) k e2 hk

theorem allUnvisited_execOp (cfg : RunCfg) (env : Env) (s : HeapState) (op : TopOp)
    (hs : AllUnvisited s) : AllUnvisited (execOp cfg env s op) := by
  cases op with
  | insert a size astep ty => exact allUnvisited_insert s a size astep ty hs
  | updateSize a n => exact allUnvisited_update s a n hs
  | delete a => exact allUnvisited_delete s a hs
  | inspectPointer fuel p ty n f c =>
    show AllUnvisited (runCall cfg env (fuel + 1) (.inspectPointer p ty n f c) s).1
    cases hp : cfg.precise with
    | true =>
      simp only [runCall, hp]
      exact allUnvisited_setAllUnvisited _
    | false =>
      simp only [runCall, hp]
      simpa using hs
  | inspectEntireHeap fuel f c =>
    show AllUnvisited (runCall cfg env (fuel + 1) (.inspectEntireHeap f c) s).1
    simp only [runCall]
    exact allUnvisited_setAllUnvisited _

theorem allUnvisited_execOps (cfg : RunCfg) (env : Env) (ops : List TopOp) :
    ∀ s, AllUnvisited s → AllUnvisited (execOps cfg env ops s) := by
  induction ops with
  | nil => exact fun s hs => hs
  | cons op ops ih => exact fun s hs => ih _ (allUnvisited_execOp cfg env s op hs)

theorem allUnvisited_init : AllUnvisited HeapState.init := by
  intro id e h
  simp [HeapState.init] at h

/-- Claim C10: after any run of top-level runtime calls that ends with a
`WhiroInspectPointer` call — fast or precise mode — every entry of the Heap
Table has `Visited = 0`.  In precise mode the call itself ends with
`WhiroSetAllHeapUnivisited`; in fast mode it leaves the table untouched,
and no other top-level call leaves a `Visited` bit set either. -/
theorem visited_clear_after_inspectPointer (cfg : RunCfg) (env : Env)
    (ops : List TopOp) (fuel : Nat) (p : Int) (ty : Nat) (name func : String) (call : Int) :
    AllUnvisited
      (execOps cfg env (ops ++ [TopOp.inspectPointer fuel p ty name func call])
        HeapState.init) :=
  allUnvisited_execOps cfg env _ HeapState.init allUnvisited_init

/-- Witness for C10: `Insert(100, 2, 2, 0)` followed by a precise-mode
inspection of pointer `100`; the entry visited during the traversal ends
unvisited. -/
theorem visited_clear_after_inspectPointer_witness :
    (execOps cfgEx envEx
        ([TopOp.insert 100 2 2 0] ++ [TopOp.inspectPointer 3 100 0 "p" "main" 1])
        HeapState.init).store 0 = some ⟨100, some ⟨0, 2, 2⟩, false, false⟩ ∧
      (⟨100, some ⟨0, 2, 2⟩, false, false⟩ : HeapEntry).Visited = false := by
  constructor
  · decide
  · exact visited_clear_after_inspectPointer cfgEx envEx [TopOp.insert 100 2 2 0]
      3 100 0 "p" "main" 1 0 _ (by decide)

end Whiro

namespace Whiro

theorem IsStdLine_colon_sep (l : String) (h : IsStdLine l) : (" : ").data <:+: l.data := by
  obtain ⟨n, f, r, c, rfl⟩ := h
  refine ⟨(n ++ " " ++ f ++ " " ++ toString c).data, (r ++ "\n").data, ?_⟩
  simp [mkLine]

/-- Claim C8, counterexample: inspecting a live scalar heap array writes
its hashcode line through `"%s %s %d: %d\n"`; the emitted line has no
space before the colon, hence not the claimed `NAME SCOPE CALL : RENDERED`
shape. -/
theorem heapArray_hash_line_counterexample :
    (runCall cfgEx envEx 5 (.inspectHeapArray 0 "p" "main" 1) intArrState).2.1 =
        ["p main 1: 961\n"] ∧
      ¬ IsStdLine "p main 1: 961\n" := by
  constructor
  · decide
  · intro h
    exact absurd (IsStdLine_colon_sep _ h) (by decide)

theorem goodLines_append {a b : List String}
    (ha : ∀ l ∈ a, IsStdLine l ∨ IsHashLine l)
    (hb : ∀ l ∈ b, IsStdLine l ∨ IsHashLine l) :
    ∀ l ∈ a ++ b, IsStdLine l ∨ IsHashLine l := by
  intro l hl
  rcases List.mem_append.mp hl with h | h
  exacts [ha l h, hb l h]

theorem isStdLine_mk (name func : String) (call : Int) (r : String) :
    IsStdLine (mkLine name func call r) := ⟨name, func, r, call, rfl⟩

theorem goodLines_single_mk (name func : String) (call : Int) (r : String) :
    ∀ l ∈ [mkLine name func call r], IsStdLine l ∨ IsHashLine l := by
  intro l hl
  rw [List.mem_singleton.mp hl]
  exact Or.inl (isStdLine_mk name func call r)

theorem goodLines_nil : ∀ l ∈ ([] : List String), IsStdLine l ∨ IsHashLine l := by
  intro l hl
  simp at hl

end Whiro

namespace Whiro

theorem goodLines_seqRun (one : HeapState × List String × List Int)
    (k : HeapState → HeapState × List String × List Int)
    (h1 : ∀ l ∈ one.2.1, IsStdLine l ∨ IsHashLine l)
    (h2 : ∀ s2, ∀ l ∈ (k s2).2.1, IsStdLine l ∨ IsHashLine l) :
    ∀ l ∈ (seqRun one k).2.1, IsStdLine l ∨ IsHashLine l := by
  intro l hl
  simp only [seqRun] at hl
  rcases List.mem_append.mp hl with h | h
  exacts [h1 l h, h2 _ l h]

theorem goodLines_fieldOne (cfg : RunCfg) (env : Env)
    (recur : RtCall → HeapState → HeapState × List String × List Int)
    (hr : ∀ c s2, ∀ l ∈ (recur c s2).2.1, IsStdLine l ∨ IsHashLine l)
    (addr : Int) (f : RtField) (name func : String) (call : Int) (s : HeapState) :
    ∀ l ∈ (fieldOne cfg env recur addr f name func call s).2.1,
      IsStdLine l ∨ IsHashLine l := by
  intro l hl
  simp only [fieldOne] at hl
  by_cases h1 : f.Format = 1 ∨ f.Format = 2
  · rw [if_pos h1] at hl
    exact Or.inl ⟨_, _, _, _, List.mem_singleton.mp hl⟩
  rw [if_neg h1] at hl
  by_cases h2 : f.Format = 3 ∨ f.Format = 4 ∨ f.Format = 5 ∨ f.Format = 6 ∨
      f.Format = 9 ∨ f.Format = 10 ∨ f.Format = 11 ∨ f.Format = 12
  · rw [if_pos h2] at hl
    exact Or.inl ⟨_, _, _, _, List.mem_singleton.mp hl⟩
  rw [if_neg h2] at hl
  by_cases h3 : f.Format = 7
  · rw [if_pos h3] at hl
    exact Or.inl ⟨_, _, _, _, List.mem_singleton.mp hl⟩
  rw [if_neg h3] at hl
  by_cases h4 : f.Format = 8
  · rw [if_pos h4] at hl
    exact Or.inl ⟨_, _, _, _, List.mem_singleton.mp hl⟩
  rw [if_neg h4] at hl
  by_cases h5 : f.Format = 13
  · rw [if_pos h5] at hl
    by_cases hp : cfg.precise = true
    · rw [if_pos hp] at hl
      exact hr _ _ l hl
    · rw [if_neg hp] at hl
      exact Or.inl ⟨_, _, _, _, List.mem_singleton.mp hl⟩
  rw [if_neg h5] at hl
  by_cases h6 : f.Format = 14
  · rw [if_pos h6] at hl
    exact Or.inl ⟨_, _, _, _, List.mem_singleton.mp hl⟩
  rw [if_neg h6] at hl
  by_cases h7 : f.Format = 15
  · rw [if_pos h7] at hl
    rcases hh : (env.typeTable f.BaseTypeIndex).Fields.head? with _ | ef
    · rw [hh] at hl
      exact absurd hl (List.not_mem_nil _)
    · rw [hh] at hl
      exact Or.inl ⟨_, _, _, _, List.mem_singleton.mp hl⟩
  rw [if_neg h7] at hl
  by_cases h8 : f.Format = 16
  · rw [if_pos h8] at hl
    exact hr _ _ l hl
  rw [if_neg h8] at hl
  by_cases h9 : f.Format = 17
  · rw [if_pos h9] at hl
    exact hr _ _ l hl
  rw [if_neg h9] at hl
  by_cases h10 : f.Format = 18
  · rw [if_pos h10] at hl
    exact Or.inl ⟨_, _, _, _, List.mem_singleton.mp hl⟩
  rw [if_neg h10] at hl
  exact absurd hl (List.not_mem_nil _)

/-- Claim C8 (amended): every line the runtime inspectors write to the
output file has the `NAME SCOPE CALL : RENDERED` shape with one space on
each side of the colon, except the array-hashcode line of
`WhiroInspectHeapArray`, whose format string `"%s %s %d: %d\n"` omits the
space before the colon. -/
theorem runCall_line_shapes (cfg : RunCfg) (env : Env) :
    ∀ (fuel : Nat) (c : RtCall) (s : HeapState),
      ∀ l ∈ (runCall cfg env fuel c s).2.1, IsStdLine l ∨ IsHashLine l := by
  intro fuel
  induction fuel with
  | zero =>
    intro c s l hl
    simp [runCall] at hl
  | succ fuel ih =>
    intro c s
    cases c with
    | inspectData addr ty name func call =>
      exact ih _ _
    | fieldsLoop addr fields name func call =>
      cases fields with
      | nil =>
        intro l hl
        simp [runCall] at hl
      | cons f fs =>
        simp only [runCall]
        exact goodLines_seqRun _ _
          (goodLines_fieldOne cfg env _ (fun c2 s2 => ih c2 s2) addr f name func call s)
          (fun s2 => ih _ s2)
    | inspectPointer ptr tyIdx name func call =>
      cases hp : cfg.precise with
      | true =>
        simp only [runCall, hp]
        exact ih _ _
      | false =>
        simp only [runCall, hp]
        exact goodLines_single_mk _ _ _ _
    | trackPointer ptr tyIdx name func call =>
      simp only [runCall]
      rcases hf : hashFind s ptr with _ | id <;> dsimp only
      · split_ifs
        · exact goodLines_nil
        · exact goodLines_nil
        · exact ih _ _
        · exact goodLines_single_mk _ _ _ _
      · split_ifs
        · exact goodLines_nil
        · exact ih _ _
    | inspectHeapData id name func call =>
      simp only [runCall]
      rcases hse : s.store id with _ | e <;> dsimp only
      · exact goodLines_nil
      · split_ifs
        · exact goodLines_nil
        · exact goodLines_single_mk _ _ _ _
        · rcases e.Data with _ | d <;> dsimp only
          · exact goodLines_nil
          · split_ifs
            · exact ih _ _
            · exact ih _ _
    | inspectHeapArray id name func call =>
      simp only [runCall]
      rcases s.store id with _ | e <;> dsimp only
      · exact goodLines_nil
      · rcases e.Data with _ | d <;> dsimp only
        · exact goodLines_nil
        · rcases (env.typeTable d.TypeIndex).Fields.head? with _ | f0 <;> dsimp only
          · exact goodLines_nil
          · split_ifs
            · intro l hl
              rw [List.mem_singleton.mp hl]
              exact Or.inr ⟨name, func, call, _, rfl⟩
            · exact ih _ _
            · exact goodLines_nil
    | ptrSlotsLoop key baseTyIdx idxs name func call =>
      cases idxs with
      | nil =>
        intro l hl
        simp [runCall] at hl
      | cons i rest =>
        simp only [runCall]
        exact goodLines_seqRun _ _ (ih _ _) (fun s2 => ih _ s2)
    | inspectUnion addr size name func call =>
      simp only [runCall]
      exact goodLines_single_mk _ _ _ _
    | inspectEntireHeap func call =>
      simp only [runCall]
      exact ih _ _
    | heapEachLoop ids func call =>
      cases ids with
      | nil =>
        intro l hl
        simp [runCall] at hl
      | cons id rest =>
        simp only [runCall]
        refine goodLines_seqRun _ _ ?_ (fun s2 => ih _ s2)
        rcases s.store id with _ | e <;> dsimp only
        · exact goodLines_nil
        · split_ifs
          · exact ih _ _
          · exact goodLines_nil

/-- Witness for C8 (amended) at the `NULL` line of a track call on a null
pointer. -/
theorem runCall_line_shapes_witness :
    ("p main 1 : NULL\n" ∈
        (runCall cfgEx envEx 1 (.trackPointer 0 0 "p" "main" 1) HeapState.init).2.1) ∧
      (IsStdLine "p main 1 : NULL\n" ∨ IsHashLine "p main 1 : NULL\n") := by
  have hm : "p main 1 : NULL\n" ∈
      (runCall cfgEx envEx 1 (.trackPointer 0 0 "p" "main" 1) HeapState.init).2.1 := by
    rw [show (runCall cfgEx envEx 1 (.trackPointer 0 0 "p" "main" 1) HeapState.init).2.1 =
        ["p main 1 : NULL\n"] from rfl]
    exact List.mem_singleton.mpr rfl
  exact ⟨hm, runCall_line_shapes cfgEx envEx 1 _ _ _ hm⟩

end Whiro
